import Mathlib

/-!
Verification development for a swup-style page transition engine.

Embedded components:
* the hook registry (src/src/modules/Hooks.ts): registration ledger,
  priority sorting, replace-chain construction, async and sync triggers;
* the render stage (renderPage in src/unnamed/part_000): staleness guard,
  redirect re-keying, content replacement and enter phase;
* the animation waiter (src/src/modules/getAnimationPromises.js).

Handlers are modelled as opaque functions identified by a numeric key
(JS function identity); their observable behaviour is whether they invoke
the defaultHandler argument they receive, and what value they return.
-/

namespace VitestSwup

/-- Return value of a handler: a plain value or a promise wrapping a value. -/
inductive RVal where
  | plain : Nat → RVal
  | promiseVal : Nat → RVal
deriving DecidableEq, Repr

/-- isPromise from src/utils: true for promise return values. -/
def isProm : RVal → Bool
  | .promiseVal _ => true
  | .plain _ => false

/-- The value obtained by awaiting a handler result (runAsPromise in
src/utils resolves promises and passes plain values through). -/
def resolveR : RVal → Nat
  | .plain n => n
  | .promiseVal n => n

/-- A handler function: identified by key (JS function identity), with its
observable behaviour: whether it invokes the defaultHandler argument it is
given, and its return value. -/
structure HFun where
  key : Nat
  callsThrough : Bool
  ret : RVal
deriving DecidableEq, Repr

/-- A synthesized default-handler chain, as built by createDefaultHandler in
Hooks.getHandlers: either the built-in default handler itself, or a closure
wrapping an older replace handler together with the chain it may delegate to. -/
inductive DChain where
  | builtin : HFun → DChain
  | wrap : HFun → DChain → DChain
deriving DecidableEq, Repr

/-- Trace of handler keys produced by invoking a default-handler chain.
The built-in default receives no defaultHandler argument of its own, so its
trace is just itself; a wrapped replace handler runs and, if it calls through,
continues into the chain it captured. -/
def chainTrace : DChain → List Nat
  | .builtin f => [f.key]
  | .wrap f c => f.key :: (if f.callsThrough then chainTrace c else [])

/-- Trace of invoking a handler with an optional defaultHandler argument. -/
def runHFun (f : HFun) : Option DChain → List Nat
  | none => [f.key]
  | some c => f.key :: (if f.callsThrough then chainTrace c else [])

/-- HookOptions from Hooks.ts: once, before, priority, replace. -/
structure HookOptions where
  once : Bool := false
  before : Bool := false
  priority : Option Int := none
  replace : Bool := false
deriving DecidableEq, Repr

/-- HookRegistration from Hooks.ts: numeric id, the handler, and the options
captured at registration time. -/
structure Reg where
  id : Nat
  handler : HFun
  priority : Option Int
  once : Bool
  before : Bool
  replace : Bool
deriving DecidableEq, Repr

/-- Effective priority: priority ?? 0, as in Hooks.sortRegistrations. -/
def prioOf (r : Reg) : Int :=
  r.priority.getD 0

/-- Strict order of Hooks.sortRegistrations: a sorts before b when the
comparator (priority difference, then id difference) is negative. -/
def regLT (a b : Reg) : Bool :=
  if prioOf a < prioOf b then true
  else if prioOf b < prioOf a then false
  else decide (a.id < b.id)

/-- Stable insertion used by the sort: an element is placed after every
earlier element that sorts strictly before it, which matches the stable
Array.prototype.sort used on ledger values. -/
def insReg (a : Reg) : List Reg → List Reg
  | [] => [a]
  | b :: bs => if regLT b a then b :: insReg a bs else a :: b :: bs

/-- Stable sort by (priority, id), as in Hooks.getHandlers. -/
def isort : List Reg → List Reg
  | [] => []
  | a :: rest => insReg a (isort rest)

/-- Map.set on the ledger: replace in place if the handler function is
already a key, otherwise append at the end (JS Map keeps insertion order
and keeps the position of an existing key on overwrite). -/
def ledgerSet (L : List Reg) (r : Reg) : List Reg :=
  match L with
  | [] => [r]
  | x :: rest => if x.handler = r.handler then r :: rest else x :: ledgerSet rest r

/-- Map.has on the ledger, keyed by handler function. -/
def ledgerHas (L : List Reg) (g : HFun) : Bool :=
  match L with
  | [] => false
  | x :: rest => if x.handler = g then true else ledgerHas rest g

/-- Map.delete on the ledger, keyed by handler function. -/
def ledgerDelete (L : List Reg) (g : HFun) : List Reg :=
  match L with
  | [] => []
  | x :: rest => if x.handler = g then rest else x :: ledgerDelete rest g

/-- The closed set of core hook names created by Hooks.init. -/
def hookNames : List String :=
  ["animation:out:start", "animation:out:await", "animation:out:end",
   "animation:in:start", "animation:in:await", "animation:in:end",
   "animation:skip", "cache:clear", "cache:set", "content:replace",
   "content:scroll", "enable", "disable", "fetch:request", "fetch:error",
   "history:popstate", "link:click", "link:self", "link:anchor",
   "link:newtab", "page:load", "page:view", "scroll:top", "scroll:anchor",
   "visit:start", "visit:end"]

/-- State of the hook registry: the per-hook ledgers plus observable logs
(console.warn count, console.error count, dispatched swup-prefixed DOM
events in order). -/
structure HooksState where
  registry : List (String × List Reg)
  warnCount : Nat
  errCount : Nat
  domEvents : List String
deriving DecidableEq, Repr

/-- Lookup of a hook ledger in the registry. -/
def assocGet : List (String × List Reg) → String → Option (List Reg)
  | [], _ => none
  | (k, v) :: rest, h => if k = h then some v else assocGet rest h

/-- Replace the ledger stored for a hook (used only for present hooks). -/
def assocSet : List (String × List Reg) → String → List Reg → List (String × List Reg)
  | [], _, _ => []
  | (k, v) :: rest, h, L => if k = h then (k, L) :: rest else (k, v) :: assocSet rest h L

/-- Registry state right after Hooks.init: one empty ledger per core hook. -/
def initState : HooksState :=
  { registry := hookNames.map fun n => (n, []), warnCount := 0, errCount := 0, domEvents := [] }

/-- Hooks.on: look up the ledger (Hooks.get logs console.error for an
unknown hook, and on additionally logs console.warn and returns a no-op
unregister); otherwise create a registration with id = ledger.size + 1 and
Map.set it. The second component describes the returned unregister function:
none is the no-op, some (hook, f) later calls off hook f. -/
def onHook (s : HooksState) (hook : String) (f : HFun) (o : HookOptions) :
    HooksState × Option (String × HFun) :=
  match assocGet s.registry hook with
  | none =>
    ({ s with errCount := s.errCount + 1, warnCount := s.warnCount + 1 }, none)
  | some L =>
    let r : Reg :=
      { id := L.length + 1, handler := f, priority := o.priority,
        once := o.once, before := o.before, replace := o.replace }
    ({ s with registry := assocSet s.registry hook (ledgerSet L r) }, some (hook, f))

/-- Hooks.off: with a handler, delete it (console.warn when absent); without
a handler, clear the ledger; unknown hook only logs via Hooks.get. -/
def off (s : HooksState) (hook : String) (f : Option HFun) : HooksState :=
  match assocGet s.registry hook with
  | none => { s with errCount := s.errCount + 1 }
  | some L =>
    match f with
    | some g =>
      if ledgerHas L g then
        { s with registry := assocSet s.registry hook (ledgerDelete L g) }
      else
        { s with warnCount := s.warnCount + 1 }
    | none => { s with registry := assocSet s.registry hook [] }

/-- An executable entry prepared by getHandlers for run/runSync: the hook it
belongs to, the handler to invoke, the synthesized defaultHandler chain (only
for the main slot of a replaced hook), and the once flag that run honours. -/
structure ExecEntry where
  hook : String
  handler : HFun
  chain : Option DChain
  once : Bool
deriving DecidableEq, Repr

/-- A plain registration becomes an entry without a defaultHandler chain. -/
def toEntry (hook : String) (r : Reg) : ExecEntry :=
  { hook := hook, handler := r.handler, chain := none, once := r.once }

/-- Last element of a registration list (replace[replace.length - 1]). -/
def lastOf : List Reg → Option Reg
  | [] => none
  | [r] => some r
  | _ :: (r :: rest) => lastOf (r :: rest)

/-- All elements of a registration list except the last. -/
def firstPart : List Reg → List Reg
  | [] => []
  | [_] => []
  | r :: (x :: rest) => r :: firstPart (x :: rest)

/-- createDefaultHandler of Hooks.getHandlers, applied to the list of
replace handlers older than the active one, newest first, ending in the
built-in default handler. -/
def chainOf (d : HFun) : List HFun → DChain
  | [] => .builtin d
  | f :: fs => .wrap f (chainOf d fs)

/-- The main-handler slot of Hooks.getHandlers: empty without a default
handler; the default handler itself when no replace handler is registered;
otherwise the newest replace handler with the synthesized chain. The
synthesized registration is built literally as in the source, without the
once flag of the replace registration. -/
def mainEntries (hook : String) (rs : List Reg) (d : Option HFun) : List ExecEntry :=
  match d with
  | none => []
  | some dh =>
    match lastOf rs with
    | none => [{ hook := hook, handler := dh, chain := none, once := false }]
    | some rLast =>
      [{ hook := hook, handler := rLast.handler,
         chain := some (chainOf dh (((firstPart rs).map Reg.handler).reverse)),
         once := false }]

/-- Result of Hooks.getHandlers: the flag for a known hook and the three
sorted groups (before handlers, main slot, after handlers). -/
structure HGroups where
  found : Bool
  pre : List ExecEntry
  mainSlot : List ExecEntry
  post : List ExecEntry
deriving DecidableEq, Repr

/-- Hooks.getHandlers: split the ledger into before / replace / after sets,
each sorted by (priority, id), and synthesize the main slot. Hooks.get logs
console.error for an unknown hook. -/
def getHandlers (s : HooksState) (hook : String) (d : Option HFun) :
    HooksState × HGroups :=
  match assocGet s.registry hook with
  | none =>
    ({ s with errCount := s.errCount + 1 },
     { found := false, pre := [], mainSlot := [], post := [] })
  | some L =>
    let preG := (isort (L.filter fun r => r.before && !r.replace)).map (toEntry hook)
    let reps := isort (L.filter fun r => r.replace)
    let postG := (isort (L.filter fun r => !r.before && !r.replace)).map (toEntry hook)
    (s, { found := true, pre := preG, mainSlot := mainEntries hook reps d, post := postG })

/-- Output of running a group of entries asynchronously (Hooks.run):
the updated state, the concatenated invocation trace, and the awaited
results pushed in order. -/
structure RunOut where
  state : HooksState
  trace : List Nat
  results : List Nat
deriving DecidableEq, Repr

/-- Hooks.run: invoke each entry in order, awaiting results, and unregister
entries marked once right after they fire. -/
def runEntries : HooksState → List ExecEntry → RunOut
  | s, [] => { state := s, trace := [], results := [] }
  | s, e :: es =>
    let tr := runHFun e.handler e.chain
    let res := resolveR e.handler.ret
    let s1 := if e.once then off s e.hook (some e.handler) else s
    let o := runEntries s1 es
    { state := o.state, trace := tr ++ o.trace, results := res :: o.results }

/-- Output of running a group of entries synchronously (Hooks.runSync):
results are kept raw, possibly still pending promises. -/
structure SyncRunOut where
  state : HooksState
  trace : List Nat
  results : List RVal
deriving DecidableEq, Repr

/-- Hooks.runSync: invoke each entry in order without awaiting; push the raw
result, log console.warn when a handler returned a promise, and unregister
entries marked once right after they fire. -/
def runSyncEntries : HooksState → List ExecEntry → SyncRunOut
  | s, [] => { state := s, trace := [], results := [] }
  | s, e :: es =>
    let tr := runHFun e.handler e.chain
    let res := e.handler.ret
    let s1 := if isProm res then { s with warnCount := s.warnCount + 1 } else s
    let s2 := if e.once then off s1 e.hook (some e.handler) else s1
    let o := runSyncEntries s2 es
    { state := o.state, trace := tr ++ o.trace, results := res :: o.results }

/-- Output of Hooks.call: final state, full invocation trace, and the
resolved return value of the main slot. -/
structure CallOut where
  state : HooksState
  trace : List Nat
  result : Option Nat
deriving DecidableEq, Repr

/-- Hooks.call: run before group, main slot, after group, awaiting each, then
dispatch the swup-prefixed DOM event; return the main result. The groups are
computed once before any handler runs. -/
def call (s : HooksState) (hook : String) (d : Option HFun) : CallOut :=
  let sg := getHandlers s hook d
  let o1 := runEntries sg.1 sg.2.pre
  let o2 := runEntries o1.state sg.2.mainSlot
  let o3 := runEntries o2.state sg.2.post
  { state := { o3.state with domEvents := o3.state.domEvents ++ [hook] },
    trace := o1.trace ++ o2.trace ++ o3.trace,
    result := o2.results.head? }

/-- Output of Hooks.callSync: the main result is returned raw, possibly a
still-pending promise. -/
structure SyncCallOut where
  state : HooksState
  trace : List Nat
  result : Option RVal
deriving DecidableEq, Repr

/-- Hooks.callSync: same ordering as call but nothing is awaited; the caller
gets the possibly unresolved main result back immediately. -/
def callSync (s : HooksState) (hook : String) (d : Option HFun) : SyncCallOut :=
  let sg := getHandlers s hook d
  let o1 := runSyncEntries sg.1 sg.2.pre
  let o2 := runSyncEntries o1.state sg.2.mainSlot
  let o3 := runSyncEntries o2.state sg.2.post
  { state := { o3.state with domEvents := o3.state.domEvents ++ [hook] },
    trace := o1.trace ++ o2.trace ++ o3.trace,
    result := o2.results.head? }

/-- Apply a sequence of hook registrations for one hook in order. -/
def applyOns (hook : String) : HooksState → List (HFun × HookOptions) → HooksState
  | s, [] => s
  | s, fo :: rest => applyOns hook (onHook s hook fo.1 fo.2).1 rest

/-! Render stage: renderPage from src/unnamed/part_000. -/

/-- A cached page record: canonical url, post-redirect responseURL, and the
content payload (title and blocks abstracted into one value). -/
structure Page where
  url : String
  responseURL : String
  content : Nat
deriving DecidableEq, Repr

/-- Modelled from the spec: Cache.store (src Cache module is not in the
sources) inserts or overwrites by record.url, keys unique, last write wins. -/
def cacheSet : List (String × Page) → Page → List (String × Page)
  | [], p => [(p.url, p)]
  | (k, q) :: rest, p => if k = p.url then (p.url, p) :: rest else (k, q) :: cacheSet rest p

/-- Modelled from the spec: Cache.lookup returns the record stored under a
resolved url, or absent. -/
def cacheLookup : List (String × Page) → String → Option Page
  | [], _ => none
  | (k, q) :: rest, u => if k = u then some q else cacheLookup rest u

/-- The world state renderPage acts on. DOM classes of the root element are
the isLeaving / isRendering flags; histUpdates records each
updateHistoryRecord call in order (updateHistoryRecord itself is modelled
from the spec: it writes a history entry carrying the given resolved url);
eventsRun records each events.run boundary; replacedContent and enterCalled
record the content swap and the enter phase start. -/
structure RenderState where
  isLeaving : Bool
  isRendering : Bool
  currentUrl : String
  currentPageUrl : String
  histUpdates : List String
  cache : List (String × Page)
  cacheEnabled : Bool
  replacedContent : Option Nat
  eventsRun : List String
  enterCalled : Bool
  scrollToElement : Option String
deriving DecidableEq, Repr

/-- renderPage from src/unnamed/part_000, parametrised by the configured
resolver (isSameResolvedUrl compares resolved urls) and by Location.fromUrl
(modelled from the spec: it normalizes the response url into a resolved
address). Steps in source order: remove the is-leaving class; return if
another page was requested in the meantime; re-key cache and update history
if the url was redirected; add the is-rendering class unless the transition
is skipped; run willReplaceContent, replace the content, run contentReplaced
and pageView; empty the cache if caching is disabled; start the enter phase;
reset the scroll target. -/
def renderPage (resolveUrl : String → String) (fromUrl : String → String)
    (page : Page) (skipTransition : Bool) (s : RenderState) : RenderState :=
  let s1 : RenderState := { s with isLeaving := false }
  if ¬ (resolveUrl s1.currentUrl = resolveUrl page.url) then s1
  else
    let url := fromUrl page.responseURL
    let s2 : RenderState :=
      if ¬ (resolveUrl s1.currentUrl = resolveUrl url) then
        { s1 with cache := cacheSet s1.cache { page with url := url },
                  currentPageUrl := s1.currentUrl,
                  histUpdates := s1.histUpdates ++ [url] }
      else s1
    let s3 : RenderState := if ¬ skipTransition then { s2 with isRendering := true } else s2
    let s4 : RenderState := { s3 with eventsRun := s3.eventsRun ++ ["willReplaceContent"] }
    let s5 : RenderState := { s4 with replacedContent := some page.content }
    let s6 : RenderState := { s5 with eventsRun := s5.eventsRun ++ ["contentReplaced", "pageView"] }
    let s7 : RenderState := if ¬ s6.cacheEnabled then { s6 with cache := [] } else s6
    let s8 : RenderState := { s7 with enterCalled := true }
    { s8 with scrollToElement := none }

/-! Animation waiter: src/src/modules/getAnimationPromises.js. -/

/-- An element matched by the animation selector, with the transition
duration its computed style declares (the empty string when none). -/
structure Elem where
  eid : Nat
  transitionDuration : String
deriving DecidableEq, Repr

/-- The source treats a missing (falsy) or literal 0s duration as
no transition. -/
def noTransition (e : Elem) : Bool :=
  e.transitionDuration = "" || e.transitionDuration = "0s"

/-- A promise produced by the animation waiter: either already resolved, or
pending until a matching transition-end event arrives. -/
inductive AnimPromise where
  | resolved : AnimPromise
  | waitingFor : Nat → AnimPromise
deriving DecidableEq, Repr

/-- An already-resolved promise needs no notification. -/
def immediateResolved : AnimPromise → Bool
  | .resolved => true
  | .waitingFor _ => false

/-- Whether a transition-end notification with the given target settles a
pending promise: the source resolves only when element == event.target. -/
def settlesOnTarget : AnimPromise → Nat → Bool
  | .resolved, _ => false
  | .waitingFor k, t => t = k

/-- getAnimationPromises: given the elements matched by the animation
selector, return one promise per element (immediately resolved for elements
without a real transition, pending on a targeted transition-end otherwise),
plus the number of console.error diagnostics logged. When no element
matches, return a single resolved promise and one diagnostic. -/
def getAnimationPromises (animatedElements : List Elem) : List AnimPromise × Nat :=
  if animatedElements.isEmpty then
    ([AnimPromise.resolved], 1)
  else
    (animatedElements.map fun e =>
       if noTransition e then AnimPromise.resolved else AnimPromise.waitingFor e.eid,
     animatedElements.countP fun e => noTransition e)

/-! Helper lemmas. -/

theorem assocGet_init_mem (l : List String) (hook : String) (h : hook ∈ l) :
    assocGet (l.map fun n => (n, [])) hook = some [] := by
  induction l with
  | nil => simp at h
  | cons a rest ih =>
    by_cases hk : a = hook
    · simp [assocGet, hk]
    · have hmem : hook ∈ rest := by
        rcases List.mem_cons.mp h with h1 | h1
        · exact absurd h1.symm hk
        · exact h1
      simp [assocGet, hk, ih hmem]

theorem assocGet_assocSet_self (R : List (String × List Reg)) (h : String)
    (L0 L : List Reg) (hget : assocGet R h = some L0) :
    assocGet (assocSet R h L) h = some L := by
  induction R with
  | nil => simp [assocGet] at hget
  | cons kv rest ih =>
    obtain ⟨k, v⟩ := kv
    by_cases hk : k = h
    · simp [assocGet, assocSet, hk]
    · simp only [assocGet, assocSet, if_neg hk] at hget ⊢
      exact ih hget

theorem ledgerSet_of_fresh (L : List Reg) (r : Reg)
    (h : ∀ x ∈ L, x.handler ≠ r.handler) :
    ledgerSet L r = L ++ [r] := by
  induction L with
  | nil => simp [ledgerSet]
  | cons x rest ih =>
    have hx : x.handler ≠ r.handler := h x (by simp)
    simp only [ledgerSet, if_neg hx, List.cons_append, List.cons.injEq, true_and]
    exact ih fun y hy => h y (by simp [hy])

theorem onHook_fst_known {s : HooksState} {hook : String} {L : List Reg}
    (f : HFun) (o : HookOptions) (hget : assocGet s.registry hook = some L) :
    (onHook s hook f o).1
      = { s with
          registry := assocSet s.registry hook
            (ledgerSet L ⟨L.length + 1, f, o.priority, o.once, o.before, o.replace⟩) } := by
  simp [onHook, hget]

theorem regGet_onHook_self {s : HooksState} {hook : String} {L : List Reg}
    (f : HFun) (o : HookOptions) (hget : assocGet s.registry hook = some L) :
    assocGet (onHook s hook f o).1.registry hook
      = some (ledgerSet L ⟨L.length + 1, f, o.priority, o.once, o.before, o.replace⟩) := by
  rw [onHook_fst_known f o hget]
  exact assocGet_assocSet_self _ _ _ _ hget

theorem cacheLookup_cacheSet_self (c : List (String × Page)) (p : Page) :
    cacheLookup (cacheSet c p) p.url = some p := by
  induction c with
  | nil => simp [cacheSet, cacheLookup]
  | cons kq rest ih =>
    obtain ⟨k, q⟩ := kq
    by_cases hk : k = p.url
    · simp [cacheSet, cacheLookup, hk]
    · simp [cacheSet, cacheLookup, hk, ih]

/-- Claim C1: for every hook with a built-in default handler D, registering
R1 and then R2 with replace true (equal priority) and triggering the hook
runs R2 as the main handler; the defaultHandler argument given to R2 runs
R1, whose own defaultHandler argument runs D — so if both call through, the
execution order is R2, then R1, then D. -/
theorem c1_replace_chain (hook : String) (hmem : hook ∈ hookNames)
    (R1 R2 D : HFun) (hne : R1 ≠ R2) (po : Option Int) :
    (call
      (onHook (onHook initState hook R1 ⟨false, false, po, true⟩).1
        hook R2 ⟨false, false, po, true⟩).1
      hook (some D)).trace
      = R2.key :: (if R2.callsThrough then
          R1.key :: (if R1.callsThrough then [D.key] else []) else []) := by
  have e0 : assocGet initState.registry hook = some [] :=
    assocGet_init_mem hookNames hook hmem
  have e1 : assocGet (onHook initState hook R1 ⟨false, false, po, true⟩).1.registry hook
      = some [⟨1, R1, po, false, false, true⟩] := by
    simpa [ledgerSet] using regGet_onHook_self R1 ⟨false, false, po, true⟩ e0
  have e2 : assocGet (onHook (onHook initState hook R1 ⟨false, false, po, true⟩).1
        hook R2 ⟨false, false, po, true⟩).1.registry hook
      = some [⟨1, R1, po, false, false, true⟩, ⟨2, R2, po, false, false, true⟩] := by
    simpa [ledgerSet, hne] using regGet_onHook_self R2 ⟨false, false, po, true⟩ e1
  simp [call, getHandlers, e2, isort, insReg, regLT, prioOf, mainEntries,
    lastOf, firstPart, chainOf, toEntry, runEntries, runHFun, chainTrace]

/-- Witness for c1_replace_chain: replacements with keys 1 and 2 on the
enable hook and a default with key 0, all calling through: order 2, 1, 0. -/
theorem c1_replace_chain_witness :
    (call
      (onHook (onHook initState "enable" ⟨1, true, .plain 11⟩ ⟨false, false, none, true⟩).1
        "enable" ⟨2, true, .plain 12⟩ ⟨false, false, none, true⟩).1
      "enable" (some ⟨0, false, .plain 10⟩)).trace = [2, 1, 0] := by
  simpa using c1_replace_chain "enable" (by decide) ⟨1, true, .plain 11⟩
    ⟨2, true, .plain 12⟩ ⟨0, false, .plain 10⟩ (by decide) none

/-- Counterexample to claim C3 as stated: handler key 1 has priority 0 and
handler key 2 has priority 1 with the before flag set (neither replaces), so
p1 < p2, yet the trigger trace is [2, 0, 1]: the higher-priority-number
handler runs first because the before flag moves it ahead of the main slot
regardless of priority. -/
theorem c3_priority_counterexample :
    (let t := (call (onHook (onHook initState "enable" ⟨1, false, .plain 0⟩
          ⟨false, false, some 0, false⟩).1
        "enable" ⟨2, false, .plain 0⟩ ⟨false, true, some 1, false⟩).1
      "enable" (some ⟨0, false, .plain 0⟩)).trace
     t = [2, 0, 1] ∧ ¬ t.indexOf 1 < t.indexOf 2) := by
  decide

/-- Claim C3 amended: for handlers registered with a priority option only
(neither before nor replace set, matching the on calls of the spec), the
handler with the lower priority runs first regardless of registration order:
triggering with default D gives the trace D, h, h2 in both orders. -/
theorem c3_priority_order (hook : String) (hmem : hook ∈ hookNames)
    (h h2 D : HFun) (hne : h ≠ h2) (p1 p2 : Int) (hp : p1 < p2) :
    ((call (onHook (onHook initState hook h ⟨false, false, some p1, false⟩).1
        hook h2 ⟨false, false, some p2, false⟩).1 hook (some D)).trace
      = [D.key, h.key, h2.key])
    ∧ ((call (onHook (onHook initState hook h2 ⟨false, false, some p2, false⟩).1
        hook h ⟨false, false, some p1, false⟩).1 hook (some D)).trace
      = [D.key, h.key, h2.key]) := by
  have e0 : assocGet initState.registry hook = some [] :=
    assocGet_init_mem hookNames hook hmem
  have hnp : ¬ p2 < p1 := lt_asymm hp
  constructor
  · have e1 : assocGet (onHook initState hook h ⟨false, false, some p1, false⟩).1.registry hook
        = some [⟨1, h, some p1, false, false, false⟩] := by
      simpa [ledgerSet] using regGet_onHook_self h ⟨false, false, some p1, false⟩ e0
    have e2 : assocGet (onHook (onHook initState hook h ⟨false, false, some p1, false⟩).1
          hook h2 ⟨false, false, some p2, false⟩).1.registry hook
        = some [⟨1, h, some p1, false, false, false⟩, ⟨2, h2, some p2, false, false, false⟩] := by
      simpa [ledgerSet, hne] using regGet_onHook_self h2 ⟨false, false, some p2, false⟩ e1
    simp [call, getHandlers, e2, isort, insReg, regLT, prioOf, mainEntries,
      lastOf, firstPart, chainOf, toEntry, runEntries, runHFun, hp, hnp]
  · have e1 : assocGet (onHook initState hook h2 ⟨false, false, some p2, false⟩).1.registry hook
        = some [⟨1, h2, some p2, false, false, false⟩] := by
      simpa [ledgerSet] using regGet_onHook_self h2 ⟨false, false, some p2, false⟩ e0
    have e2 : assocGet (onHook (onHook initState hook h2 ⟨false, false, some p2, false⟩).1
          hook h ⟨false, false, some p1, false⟩).1.registry hook
        = some [⟨1, h2, some p2, false, false, false⟩, ⟨2, h, some p1, false, false, false⟩] := by
      simpa [ledgerSet, hne.symm] using regGet_onHook_self h ⟨false, false, some p1, false⟩ e1
    simp [call, getHandlers, e2, isort, insReg, regLT, prioOf, mainEntries,
      lastOf, firstPart, chainOf, toEntry, runEntries, runHFun, hp, hnp]

/-- Witness for c3_priority_order: keys 1 and 2 with priorities 0 < 1 on the
enable hook, default key 0: trace [0, 1, 2] in both registration orders. -/
theorem c3_priority_order_witness :
    ((call (onHook (onHook initState "enable" ⟨1, false, .plain 0⟩
        ⟨false, false, some 0, false⟩).1
      "enable" ⟨2, false, .plain 0⟩ ⟨false, false, some 1, false⟩).1
      "enable" (some ⟨0, false, .plain 0⟩)).trace = [0, 1, 2])
    ∧ ((call (onHook (onHook initState "enable" ⟨2, false, .plain 0⟩
        ⟨false, false, some 1, false⟩).1
      "enable" ⟨1, false, .plain 0⟩ ⟨false, false, some 0, false⟩).1
      "enable" (some ⟨0, false, .plain 0⟩)).trace = [0, 1, 2]) := by
  simpa using c3_priority_order "enable" (by decide) ⟨1, false, .plain 0⟩
    ⟨2, false, .plain 0⟩ ⟨0, false, .plain 0⟩ (by decide) 0 1 (by decide)

/-- Claim C4 (code bug): a handler registered with once and replace both
true runs on every trigger instead of exactly once. The synthesized main
registration built in getHandlers for a replaced hook does not carry the
once flag of the replace registration, so run never unregisters it. Here the
handler (key 1) has run twice after two triggers with a default handler, and
is still registered afterwards. -/
theorem c4_once_replace_fires_twice :
    (let sA := (onHook initState "enable" ⟨1, true, .plain 0⟩ ⟨true, false, none, true⟩).1
     let o1 := call sA "enable" (some ⟨0, false, .plain 0⟩)
     let o2 := call o1.state "enable" (some ⟨0, false, .plain 0⟩)
     (o1.trace ++ o2.trace).count 1 = 2
       ∧ ledgerHas ((assocGet o2.state.registry "enable").getD []) ⟨1, true, .plain 0⟩ = true) := by
  decide

/-- Counterexample to claim C5 as stated: register handlers with keys 1, 2, 3
(ids 1, 2, 3), then off the first two, then register key 4. The new
registration gets id = ledger.size + 1 = 2, which is smaller than the live
id 3 — ids are neither monotonically increasing nor collision-free across
off calls. The trigger trace is [4, 3]: the later-registered equal-priority
handler (key 4) runs before the earlier-registered one (key 3), so the
tie-break is not stable. -/
theorem c5_id_counterexample :
    (let s := (onHook (off (off (onHook (onHook (onHook initState
        "enable" ⟨1, false, .plain 0⟩ {}).1
        "enable" ⟨2, false, .plain 0⟩ {}).1
        "enable" ⟨3, false, .plain 0⟩ {}).1
        "enable" (some ⟨1, false, .plain 0⟩))
        "enable" (some ⟨2, false, .plain 0⟩))
        "enable" ⟨4, false, .plain 0⟩ {}).1
     (((assocGet s.registry "enable").getD []).map Reg.id = [3, 2])
       ∧ (call s "enable" none).trace = [4, 3]) := by
  decide

theorem applyOns_ids_aux (hook : String) (fs : List (HFun × HookOptions)) :
    ∀ (s : HooksState) (L : List Reg),
      assocGet s.registry hook = some L →
      L.map Reg.id = List.range' 1 L.length →
      (L.map Reg.handler ++ fs.map Prod.fst).Nodup →
      ((assocGet (applyOns hook s fs).registry hook).getD []).map Reg.id
        = List.range' 1 (L.length + fs.length) := by
  induction fs with
  | nil =>
    intro s L hget hids _
    simp [applyOns, hget, hids]
  | cons fo rest ih =>
    intro s L hget hids hnd
    have hdisj := (List.nodup_append.mp hnd).2.2
    have hfresh : ∀ x ∈ L, x.handler ≠ fo.1 := by
      intro x hx heq
      exact hdisj (List.mem_map_of_mem Reg.handler hx) (by simp [heq])
    have hstep : assocGet (onHook s hook fo.1 fo.2).1.registry hook
        = some (L ++ [⟨L.length + 1, fo.1, fo.2.priority, fo.2.once, fo.2.before, fo.2.replace⟩]) := by
      rw [regGet_onHook_self fo.1 fo.2 hget, ledgerSet_of_fresh _ _ hfresh]
    have hids' : (L ++ [(⟨L.length + 1, fo.1, fo.2.priority, fo.2.once, fo.2.before,
        fo.2.replace⟩ : Reg)]).map Reg.id
        = List.range' 1 (L ++ [(⟨L.length + 1, fo.1, fo.2.priority, fo.2.once, fo.2.before,
            fo.2.replace⟩ : Reg)]).length := by
      simp [hids, List.range'_concat, Nat.add_comm]
    have hnd' : ((L ++ [(⟨L.length + 1, fo.1, fo.2.priority, fo.2.once, fo.2.before,
        fo.2.replace⟩ : Reg)]).map Reg.handler ++ rest.map Prod.fst).Nodup := by
      simpa [List.append_assoc] using hnd
    have hout := ih (onHook s hook fo.1 fo.2).1 _ hstep hids' hnd'
    simpa [applyOns, Nat.add_assoc, Nat.add_comm, Nat.add_left_comm] using hout

/-- Claim C5 amended: across any sequence of on calls with pairwise distinct
handlers and no intervening off call, registration ids per hook are exactly
1, 2, ..., n in registration order — monotonically increasing and unique, so
the (priority, id) tie-break follows registration order. (After an off call
the id counter, computed as ledger size + 1, can reassign a live id and
reorder equal-priority handlers, as the counterexample shows.) -/
theorem c5_ids_monotone (hook : String) (hmem : hook ∈ hookNames)
    (fs : List (HFun × HookOptions)) (hnd : (fs.map Prod.fst).Nodup) :
    ((assocGet (applyOns hook initState fs).registry hook).getD []).map Reg.id
      = List.range' 1 fs.length := by
  have e0 : assocGet initState.registry hook = some [] :=
    assocGet_init_mem hookNames hook hmem
  simpa using applyOns_ids_aux hook fs initState [] e0 (by simp) (by simpa using hnd)

/-- Witness for c5_ids_monotone: three distinct handlers registered in a row
on the enable hook get ids 1, 2, 3. -/
theorem c5_ids_monotone_witness :
    ((assocGet (applyOns "enable" initState
        [(⟨1, false, .plain 0⟩, {}), (⟨2, false, .plain 0⟩, {}),
         (⟨3, false, .plain 0⟩, {})]).registry "enable").getD []).map Reg.id
      = List.range' 1 3 := by
  simpa using c5_ids_monotone "enable" (by decide)
    [(⟨1, false, .plain 0⟩, {}), (⟨2, false, .plain 0⟩, {}), (⟨3, false, .plain 0⟩, {})]
    (by decide)

theorem runSync_results (es : List ExecEntry) :
    ∀ s : HooksState, (runSyncEntries s es).results = es.map fun e => e.handler.ret := by
  induction es with
  | nil => intro s; simp [runSyncEntries]
  | cons e rest ih => intro s; simp [runSyncEntries, ih]

theorem runSync_warnCount (es : List ExecEntry) :
    ∀ s : HooksState, (∀ e ∈ es, e.once = false) →
      (runSyncEntries s es).state.warnCount
        = s.warnCount + es.countP fun e => isProm e.handler.ret := by
  induction es with
  | nil => intro s _; simp [runSyncEntries]
  | cons e rest ih =>
    intro s h
    have he : e.once = false := h e (by simp)
    have hr : ∀ x ∈ rest, x.once = false := fun x hx => h x (by simp [hx])
    cases hp : isProm e.handler.ret with
    | false => simp [runSyncEntries, hp, he, ih _ hr, List.countP_cons]
    | true =>
      simp [runSyncEntries, hp, he, ih _ hr, List.countP_cons]
      omega

/-- Claim C6: callSync never suspends the caller — it is a plain function
returning without awaiting anything. A handler returning a pending promise
has its raw (possibly unresolved) return value captured in the results list
rather than dropped, one console warning is recorded per promise-returning
handler executed, and the main result is handed back while still a pending
promise. -/
theorem c6_sync_no_await :
    (∀ (s : HooksState) (es : List ExecEntry),
        (runSyncEntries s es).results = es.map fun e => e.handler.ret)
    ∧ (∀ (s : HooksState) (es : List ExecEntry), (∀ e ∈ es, e.once = false) →
        (runSyncEntries s es).state.warnCount
          = s.warnCount + es.countP fun e => isProm e.handler.ret)
    ∧ (∀ (s : HooksState) (hook : String) (D : HFun) (n : Nat),
        assocGet s.registry hook = some [] → D.ret = .promiseVal n →
          (callSync s hook (some D)).result = some (.promiseVal n)
          ∧ (callSync s hook (some D)).state.warnCount = s.warnCount + 1) := by
  refine ⟨fun s es => runSync_results es s, fun s es h => runSync_warnCount es s h, ?_⟩
  intro s hook D n hget hD
  constructor <;>
    simp [callSync, getHandlers, hget, isort, mainEntries, lastOf, firstPart,
      runSyncEntries, runHFun, hD, isProm]

/-- Witness for c6_sync_no_await: two no-flag entries where the first returns
a pending promise: both raw results captured, one warning; and a default
handler returning a pending promise is handed back unresolved with one
warning. -/
theorem c6_sync_no_await_witness :
    ((runSyncEntries initState
        [⟨"enable", ⟨1, false, .promiseVal 5⟩, none, false⟩,
         ⟨"enable", ⟨2, false, .plain 3⟩, none, false⟩]).results
        = [.promiseVal 5, .plain 3])
    ∧ ((runSyncEntries initState
        [⟨"enable", ⟨1, false, .promiseVal 5⟩, none, false⟩,
         ⟨"enable", ⟨2, false, .plain 3⟩, none, false⟩]).state.warnCount = 1)
    ∧ ((callSync initState "enable" (some ⟨0, false, .promiseVal 7⟩)).result
        = some (.promiseVal 7))
    ∧ ((callSync initState "enable" (some ⟨0, false, .promiseVal 7⟩)).state.warnCount = 1) := by
  have h := c6_sync_no_await
  refine ⟨by simpa using h.1 initState _, by simpa using h.2.1 initState _ (by decide), ?_, ?_⟩
  · exact (h.2.2 initState "enable" ⟨0, false, .promiseVal 7⟩ 7 (by decide) rfl).1
  · simpa using (h.2.2 initState "enable" ⟨0, false, .promiseVal 7⟩ 7 (by decide) rfl).2

/-- Counterexample to claim C9 as stated: triggering the unknown hook name
bogus is not free of observable effects — the swup-prefixed DOM notification
event is still dispatched, because call runs dispatchDomEvent
unconditionally even when getHandlers found no ledger. No handler runs, the
result is undefined and a diagnostic is logged, but the dispatched-event log
changes. -/
theorem c9_unknown_counterexample :
    (let o := call initState "bogus" (some ⟨0, false, .plain 0⟩)
     o.state.domEvents = ["bogus"] ∧ ¬ o.state.domEvents = initState.domEvents
       ∧ o.trace = [] ∧ o.result = none ∧ o.state.errCount = 1) := by
  decide

/-- Claim C9 amended: registering on an unknown hook logs an error and a
warning, leaves the registry unchanged and returns the no-op unregister;
triggering an unknown hook logs an error, executes no handler (not even the
supplied default), returns no result and leaves the registry unchanged — but
it still dispatches the swup-prefixed DOM notification event. Nothing
throws: both operations are total. -/
theorem c9_unknown_hook (s : HooksState) (name : String) (f D : HFun)
    (o : HookOptions) (hget : assocGet s.registry name = none) :
    ((onHook s name f o).1.registry = s.registry
      ∧ (onHook s name f o).2 = none
      ∧ (onHook s name f o).1.warnCount = s.warnCount + 1
      ∧ (onHook s name f o).1.errCount = s.errCount + 1)
    ∧ ((call s name (some D)).trace = []
      ∧ (call s name (some D)).result = none
      ∧ (call s name (some D)).state.registry = s.registry
      ∧ (call s name (some D)).state.errCount = s.errCount + 1
      ∧ (call s name (some D)).state.domEvents = s.domEvents ++ [name]) := by
  constructor
  · simp [onHook, hget]
  · simp [call, getHandlers, hget, runEntries]

/-- Witness for c9_unknown_hook at the unknown name bogus on the initial
state. -/
theorem c9_unknown_hook_witness :
    ((onHook initState "bogus" ⟨1, false, .plain 0⟩ {}).1.registry = initState.registry
      ∧ (onHook initState "bogus" ⟨1, false, .plain 0⟩ {}).2 = none
      ∧ (onHook initState "bogus" ⟨1, false, .plain 0⟩ {}).1.warnCount = 1
      ∧ (onHook initState "bogus" ⟨1, false, .plain 0⟩ {}).1.errCount = 1)
    ∧ ((call initState "bogus" (some ⟨0, false, .plain 0⟩)).trace = []
      ∧ (call initState "bogus" (some ⟨0, false, .plain 0⟩)).result = none
      ∧ (call initState "bogus" (some ⟨0, false, .plain 0⟩)).state.registry
          = initState.registry
      ∧ (call initState "bogus" (some ⟨0, false, .plain 0⟩)).state.errCount = 1
      ∧ (call initState "bogus" (some ⟨0, false, .plain 0⟩)).state.domEvents = ["bogus"]) := by
  simpa using c9_unknown_hook initState "bogus" ⟨1, false, .plain 0⟩
    ⟨0, false, .plain 0⟩ {} (by decide)

theorem ledgerSet_handler_mem {L : List Reg} {r : Reg} {y : HFun}
    (h : y ∈ (ledgerSet L r).map Reg.handler) :
    y ∈ L.map Reg.handler ∨ y = r.handler := by
  induction L with
  | nil =>
    simp [ledgerSet] at h
    exact Or.inr h
  | cons x rest ih =>
    by_cases hx : x.handler = r.handler
    · simp only [ledgerSet, if_pos hx, List.map_cons, List.mem_cons] at h
      rcases h with h | h
      · exact Or.inr h
      · exact Or.inl (by simp [h])
    · simp only [ledgerSet, if_neg hx, List.map_cons, List.mem_cons] at h
      rcases h with h | h
      · exact Or.inl (by simp [h])
      · rcases ih h with h1 | h1
        · exact Or.inl (by simp [h1])
        · exact Or.inr h1

theorem ledgerSet_nodup (L : List Reg) (r : Reg)
    (h : (L.map Reg.handler).Nodup) :
    ((ledgerSet L r).map Reg.handler).Nodup := by
  induction L with
  | nil => simp [ledgerSet]
  | cons x rest ih =>
    rw [List.map_cons, List.nodup_cons] at h
    by_cases hx : x.handler = r.handler
    · rw [ledgerSet, if_pos hx, List.map_cons, List.nodup_cons]
      exact ⟨by rw [← hx]; exact h.1, h.2⟩
    · rw [ledgerSet, if_neg hx, List.map_cons, List.nodup_cons]
      refine ⟨fun hmem => ?_, ih h.2⟩
      rcases ledgerSet_handler_mem hmem with h1 | h1
      · exact h.1 h1
      · exact hx h1

/-- Claim C10: the ledger holds at most one registration per handler
function. Map.set keyed by the handler preserves distinctness of handlers;
registering the same handler a second time overwrites the previous
registration — its options and id are discarded in favour of the new ones
(id = ledger size + 1 = 2 here) — and a trigger still runs the handler just
once, after the default handler. -/
theorem c10_single_registration (hook : String) (hmem : hook ∈ hookNames)
    (f D : HFun) (o1 : HookOptions) (p2 : Option Int) (b2 : Bool) :
    (∀ (L : List Reg) (r : Reg), (L.map Reg.handler).Nodup →
        ((ledgerSet L r).map Reg.handler).Nodup)
    ∧ (assocGet (onHook (onHook initState hook f o1).1 hook f
          ⟨b2, false, p2, false⟩).1.registry hook
        = some [⟨2, f, p2, b2, false, false⟩])
    ∧ ((call (onHook (onHook initState hook f o1).1 hook f
          ⟨b2, false, p2, false⟩).1 hook (some D)).trace = [D.key, f.key]) := by
  have e0 : assocGet initState.registry hook = some [] :=
    assocGet_init_mem hookNames hook hmem
  have e1 : assocGet (onHook initState hook f o1).1.registry hook
      = some [⟨1, f, o1.priority, o1.once, o1.before, o1.replace⟩] := by
    simpa [ledgerSet] using regGet_onHook_self f o1 e0
  have e2 : assocGet (onHook (onHook initState hook f o1).1 hook f
        ⟨b2, false, p2, false⟩).1.registry hook
      = some [⟨2, f, p2, b2, false, false⟩] := by
    simpa [ledgerSet] using regGet_onHook_self f ⟨b2, false, p2, false⟩ e1
  refine ⟨fun L r hnd => ledgerSet_nodup L r hnd, e2, ?_⟩
  simp [call, getHandlers, e2, isort, insReg, regLT, prioOf, mainEntries,
    lastOf, firstPart, toEntry, runEntries, runHFun]

/-- Witness for c10_single_registration: handler key 1 first registered with
replace and priority 5, re-registered with priority 7 and no flags; one
registration with id 2 remains and the trigger trace is [0, 1]. -/
theorem c10_single_registration_witness :
    (([(⟨1, ⟨1, false, .plain 0⟩, none, false, false, false⟩ : Reg)].map
        Reg.handler).Nodup →
      ((ledgerSet [⟨1, ⟨1, false, .plain 0⟩, none, false, false, false⟩]
        ⟨2, ⟨2, false, .plain 0⟩, none, false, false, false⟩).map Reg.handler).Nodup)
    ∧ (assocGet (onHook (onHook initState "enable" ⟨1, true, .plain 11⟩
          ⟨false, true, some 5, true⟩).1 "enable" ⟨1, true, .plain 11⟩
          ⟨false, false, some 7, false⟩).1.registry "enable"
        = some [⟨2, ⟨1, true, .plain 11⟩, some 7, false, false, false⟩])
    ∧ ((call (onHook (onHook initState "enable" ⟨1, true, .plain 11⟩
          ⟨false, true, some 5, true⟩).1 "enable" ⟨1, true, .plain 11⟩
          ⟨false, false, some 7, false⟩).1 "enable" (some ⟨0, false, .plain 10⟩)).trace
        = [0, 1]) := by
  have h := c10_single_registration "enable" (by decide) ⟨1, true, .plain 11⟩
    ⟨0, false, .plain 10⟩ ⟨false, true, some 5, true⟩ (some 7) false
  exact ⟨fun hnd => h.1 _ _ hnd, by simpa using h.2.1, by simpa using h.2.2⟩

/-- Counterexample to claim C2 as stated: when the render stage starts stale
(the current location no longer resolves to the page record url), renderPage
still mutates the DOM before the currency check — it removes the is-leaving
class from the root element unconditionally on its first line. Here the
class is present on entry and gone on return while the visit is stale. -/
theorem c2_stale_counterexample :
    (let s0 : RenderState :=
       ⟨true, false, "/b", "/b", [], [], true, none, [], false, none⟩
     let r := renderPage (fun u => u) (fun u => u) ⟨"/a", "/a", 7⟩ false s0
     ¬ ((fun u : String => u) s0.currentUrl = (fun u : String => u) "/a")
       ∧ s0.isLeaving = true ∧ r.isLeaving = false
       ∧ ¬ r = s0) := by
  decide

/-- Claim C2 amended: when the render stage begins after a newer navigation
has superseded the visit (the resolved current location differs from the
page record url), renderPage returns immediately after removing the
is-leaving class: no history update, no cache write, no content replacement,
no enter phase, no scroll-target change — the state is unchanged except for
that one class removal, which happens unconditionally before the check. -/
theorem c2_stale_no_effects (resolveUrl fromUrl : String → String) (page : Page)
    (skip : Bool) (s : RenderState)
    (hstale : ¬ (resolveUrl s.currentUrl = resolveUrl page.url)) :
    renderPage resolveUrl fromUrl page skip s = { s with isLeaving := false } := by
  simp [renderPage, hstale]

/-- Witness for c2_stale_no_effects: stale state with current location /b and
page url /a under the identity resolver. -/
theorem c2_stale_no_effects_witness :
    renderPage (fun u => u) (fun u => u) ⟨"/a", "/a", 7⟩ false
      ⟨true, false, "/b", "/b", [], [], true, none, [], false, none⟩
      = { (⟨true, false, "/b", "/b", [], [], true, none, [], false,
          none⟩ : RenderState) with isLeaving := false } :=
  c2_stale_no_effects (fun u => u) (fun u => u) ⟨"/a", "/a", 7⟩ false
    ⟨true, false, "/b", "/b", [], [], true, none, [], false, none⟩ (by decide)

/-- Claim C7: when the visit is still current but the response URL resolves
to a different url than the requested one (a redirect), renderPage stores
the page record in the cache under the redirected url, appends exactly one
history update carrying the redirected url (not the requested one), and
refreshes currentPageUrl. -/
theorem c7_redirect_rekey (resolveUrl fromUrl : String → String) (page : Page)
    (skip : Bool) (s : RenderState)
    (hcur : resolveUrl s.currentUrl = resolveUrl page.url)
    (hred : ¬ (resolveUrl s.currentUrl = resolveUrl (fromUrl page.responseURL)))
    (hcache : s.cacheEnabled = true) :
    (cacheLookup (renderPage resolveUrl fromUrl page skip s).cache
        (fromUrl page.responseURL)
      = some { page with url := fromUrl page.responseURL })
    ∧ ((renderPage resolveUrl fromUrl page skip s).histUpdates
        = s.histUpdates ++ [fromUrl page.responseURL])
    ∧ ((renderPage resolveUrl fromUrl page skip s).currentPageUrl = s.currentUrl)
    ∧ ¬ (resolveUrl (fromUrl page.responseURL) = resolveUrl page.url) := by
  have h2 : ¬ (resolveUrl page.url = resolveUrl (fromUrl page.responseURL)) :=
    fun h => hred (hcur.trans h)
  have hne : ¬ (resolveUrl (fromUrl page.responseURL) = resolveUrl page.url) :=
    fun h => h2 h.symm
  refine ⟨?_, ?_, ?_, hne⟩ <;>
    cases skip <;>
      simp [renderPage, hcur, h2, hcache]
  all_goals
    have := cacheLookup_cacheSet_self s.cache { page with url := fromUrl page.responseURL }
    simpa using this

/-- Witness for c7_redirect_rekey: requested /a, response redirected to /c,
identity resolver, cache enabled: the cache gains the record under /c and
the history update carries /c. -/
theorem c7_redirect_rekey_witness :
    (cacheLookup (renderPage (fun u => u) (fun u => u) ⟨"/a", "/c", 5⟩ false
        ⟨false, false, "/a", "/a", [], [], true, none, [], false, none⟩).cache "/c"
      = some ⟨"/c", "/c", 5⟩)
    ∧ ((renderPage (fun u => u) (fun u => u) ⟨"/a", "/c", 5⟩ false
        ⟨false, false, "/a", "/a", [], [], true, none, [], false, none⟩).histUpdates
      = ["/c"])
    ∧ ((renderPage (fun u => u) (fun u => u) ⟨"/a", "/c", 5⟩ false
        ⟨false, false, "/a", "/a", [], [], true, none, [], false, none⟩).currentPageUrl
      = "/a")
    ∧ ¬ ((fun u : String => u) ((fun u : String => u) "/c")
        = (fun u : String => u) "/a") := by
  have h := c7_redirect_rekey (fun u => u) (fun u => u) ⟨"/a", "/c", 5⟩ false
    ⟨false, false, "/a", "/a", [], [], true, none, [], false, none⟩
    (by decide) (by decide) rfl
  exact ⟨by simpa using h.1, by simpa using h.2.1, by simpa using h.2.2.1, h.2.2.2⟩

/-- Claim C8: the animation waiter returns one promise per matched element:
for an element declaring a non-zero transition duration, a pending promise
that settles exactly on a transition-end notification targeting that element
(and on no other target); for an element with no declared transition or a 0s
duration, an already-resolved promise, with one diagnostic logged per such
element; and when no element matches the selector at all, a single
immediately resolved promise (plus a diagnostic) instead of hanging. -/
theorem c8_animation_promises :
    (getAnimationPromises [] = ([AnimPromise.resolved], 1))
    ∧ (∀ k t, settlesOnTarget (AnimPromise.waitingFor k) t = true ↔ t = k)
    ∧ (∀ k, immediateResolved (AnimPromise.waitingFor k) = false)
    ∧ (immediateResolved AnimPromise.resolved = true)
    ∧ (∀ es : List Elem, ¬ es = [] →
        (getAnimationPromises es).1.length = es.length
        ∧ (getAnimationPromises es).2 = es.countP (fun e => noTransition e)
        ∧ (∀ i, i < es.length →
            (noTransition (es.getD i ⟨0, ""⟩) = false →
              (getAnimationPromises es).1.getD i AnimPromise.resolved
                = AnimPromise.waitingFor (es.getD i ⟨0, ""⟩).eid)
            ∧ (noTransition (es.getD i ⟨0, ""⟩) = true →
              (getAnimationPromises es).1.getD i
                  (AnimPromise.waitingFor ((es.getD i ⟨0, ""⟩).eid + 1))
                = AnimPromise.resolved))) := by
  refine ⟨rfl, ?_, fun k => rfl, rfl, ?_⟩
  · intro k t
    simp [settlesOnTarget]
  · intro es hne
    have hmap : (getAnimationPromises es).1
        = es.map fun e =>
            if noTransition e then AnimPromise.resolved else AnimPromise.waitingFor e.eid := by
      cases es with
      | nil => exact absurd rfl hne
      | cons e rest => simp [getAnimationPromises]
    have hcnt : (getAnimationPromises es).2 = es.countP fun e => noTransition e := by
      cases es with
      | nil => exact absurd rfl hne
      | cons e rest => simp [getAnimationPromises]
    refine ⟨by simp [hmap], hcnt, ?_⟩
    intro i hi
    have hi' : i < (es.map fun e =>
        if noTransition e then AnimPromise.resolved
        else AnimPromise.waitingFor e.eid).length := by
      simpa using hi
    have hgetE : es.getD i ⟨0, ""⟩ = es[i] := by
      simp [List.getD_eq_getElem?_getD, List.getElem?_eq_getElem hi]
    constructor
    · intro hcond
      rw [hgetE] at hcond ⊢
      rw [hmap]
      simp [List.getD_eq_getElem?_getD, List.getElem?_map,
        List.getElem?_eq_getElem hi, hcond]
    · intro hcond
      rw [hgetE] at hcond
      rw [hmap]
      simp [List.getD_eq_getElem?_getD, List.getElem?_map,
        List.getElem?_eq_getElem hi, hcond]

/-- Witness for c8_animation_promises: two elements, one with a 300ms
transition (key 1) and one with 0s (key 2): a pending promise settling only
on target 1 plus a resolved promise, with one diagnostic. -/
theorem c8_animation_promises_witness :
    (settlesOnTarget (AnimPromise.waitingFor 1) 1 = true ↔ (1 : Nat) = 1)
    ∧ ((getAnimationPromises [⟨1, "0.3s"⟩, ⟨2, "0s"⟩]).1.length = 2
        ∧ (getAnimationPromises [⟨1, "0.3s"⟩, ⟨2, "0s"⟩]).2 = 1
        ∧ ((getAnimationPromises [⟨1, "0.3s"⟩, ⟨2, "0s"⟩]).1.getD 0 AnimPromise.resolved
              = AnimPromise.waitingFor 1
            ∧ (getAnimationPromises [⟨1, "0.3s"⟩, ⟨2, "0s"⟩]).1.getD 1
                (AnimPromise.waitingFor 3) = AnimPromise.resolved)) := by
  have h := c8_animation_promises
  have h5 := h.2.2.2.2 [⟨1, "0.3s"⟩, ⟨2, "0s"⟩] (by decide)
  refine ⟨h.2.1 1 1, h5.1, by simpa using h5.2.1, ?_, ?_⟩
  · exact (h5.2.2 0 (by decide)).1 (by decide)
  · simpa using (h5.2.2 1 (by decide)).2 (by decide)

end VitestSwup
